import Mathlib

/-!
Verification of the Requester asynchronous execution and aggregation engine.

Shallow embedding of the core of the Requester plugin
(`src/core/__init__.py` and `src/request_commands.py`): the response
aggregation loop (`gather_responses`), the bounded pool registry inside
`make_requests`, the cancel-all command, the history store
(`persist_requests`) and the env-block parser (`parse_env_block`).

Stateful, concurrent parts (the worker pool mutating its completed-response
container while the scheduler polls) are embedded as traces: each poll tick
records the `is_done` snapshot taken at the start of the tick and the list
of responses drained from the pool's container during that tick.
-/

namespace Requester

/-- The wrapped HTTP response object (`response.response` in the code, a
`requests` library response).  Only the fields `persist_requests` and the
view-matching helpers read are modelled: `res.request.method`, `res.url`
and `res.status_code`. -/
structure HttpResponse where
  method : String
  url : String
  status_code : Nat
  deriving Repr, DecidableEq

/-- A completed `Response` record as produced by the worker pool and consumed
by `gather_responses` / `persist_requests`: fields `request` (original
request text), `response` (the wrapped result, `None` on failure), `error`
(error text, `None` on success) and `ordering` (the request's index in the
submitted batch). -/
structure Response where
  request : String
  response : Option HttpResponse
  error : Option String
  ordering : Nat
  deriving Repr, DecidableEq

/-- The order `gather_responses` sorts by:
`responses.sort(key=lambda response: response.ordering)`. -/
def orderingLE (a b : Response) : Prop := a.ordering ≤ b.ordering

instance : DecidableRel orderingLE := fun a b => Nat.decLe a.ordering b.ordering

instance : IsTotal Response orderingLE := ⟨fun a b => Nat.le_total a.ordering b.ordering⟩

instance : IsTrans Response orderingLE := ⟨fun _ _ _ h h' => Nat.le_trans h h'⟩

/-- `responses.sort(key=lambda response: response.ordering)`; Python's sort is
a stable comparison sort, embedded as stable insertion sort on `orderingLE`. -/
def sortByOrdering (rs : List Response) : List Response :=
  rs.insertionSort orderingLE

/-- One tick of the polling loop in `gather_responses`, as observed by the
scheduler thread: `is_done` is the snapshot `is_done = pool.is_done` taken
before draining, and `arrived` is what the drain loop
(`while len(pool.responses): pool.responses.pop(0)`) removes from the
pool's completed-response container during this tick. -/
structure PoolTick where
  is_done : Bool
  arrived : List Response
  deriving Repr, DecidableEq

/-- The callback invocations `gather_responses` performs: `per_response` lists
the arguments of the `handle_response` calls in arrival order, and `batch`
is the argument of the `handle_responses` call when it happens. -/
structure GatherLog where
  per_response : List Response
  batch : Option (List Response)
  deriving Repr, DecidableEq

/-- `gather_responses(pool, count, responses)` over a finite trace of ticks.
Each tick: snapshot `is_done`, drain `arrived` into the accumulator while
invoking `handle_response` per element; when the snapshot was true, sort the
accumulator by `ordering` and invoke `handle_responses` (and the error /
history steps) with it, then return — later ticks never run.  An exhausted
trace means the pool was still being polled: no batch callback yet. -/
def gather_responses : List PoolTick → List Response → GatherLog
  | [], _ => { per_response := [], batch := none }
  | t :: ts, responses =>
    let responses' := responses ++ t.arrived
    if t.is_done then
      { per_response := t.arrived, batch := some (sortByOrdering responses') }
    else
      let rest := gather_responses ts responses'
      { per_response := t.arrived ++ rest.per_response, batch := rest.batch }

/-- The slice of a `ResponseThreadPool` the registry and the cancel command
touch: its mutable `is_done` flag.  `id` distinguishes pool instances. -/
structure Pool where
  id : Nat
  is_done : Bool
  deriving Repr, DecidableEq

/-- `old_pool.is_done = True`: mark a pool cancelled. -/
def markDone (p : Pool) : Pool := { p with is_done := true }

/-- A Python `queue.Queue` holding the registry of response pools
(`RESPONSE_POOLS = Queue()`), front of the list = oldest element. -/
structure PyQueue (α : Type) where
  items : List α
  deriving Repr, DecidableEq

/-- `pools.put(pool)` appends at the back. -/
def PyQueue.put (q : PyQueue α) (x : α) : PyQueue α := ⟨q.items ++ [x]⟩

/-- `pools.qsize()`. -/
def PyQueue.qsize (q : PyQueue α) : Nat := q.items.length

/-- Python iteration protocol applied to a `queue.Queue`: the class defines
neither `__iter__` nor `__getitem__`, so `for pool in pools` raises
`TypeError` instead of yielding the queued elements. -/
def PyQueue.iterElems (_ : PyQueue α) : Except String (List α) :=
  .error "TypeError: Queue object is not iterable"

/-- The eviction loop in `make_requests`:
`while pools.qsize() > MAX_NUM_RESPONSE_POOLS: old_pool = pools.get();
old_pool.is_done = True`.  Returns the remaining queue contents and the
evicted pools (each marked done, eviction order). -/
def evictOld (maxNum : Nat) : List Pool → List Pool → List Pool × List Pool
  | [], evicted => ([], evicted)
  | old :: rest, evicted =>
    if (old :: rest).length > maxNum then
      evictOld maxNum rest (evicted ++ [markDone old])
    else (old :: rest, evicted)

/-- The registry update in `make_requests` (lines 211–216): put the new pool,
then evict-and-mark-done from the front while the queue exceeds
`MAX_NUM_RESPONSE_POOLS`. -/
def make_requests_register (maxNum : Nat) (pools : PyQueue Pool) (p : Pool) :
    PyQueue Pool × List Pool :=
  let q := (pools.put p).items
  let r := evictOld maxNum q []
  (⟨r.1⟩, r.2)

/-- `RequesterCancelRequestsCommand.run`: `for pool in pools: pool.is_done =
True` over the `queue.Queue` of pools.  Iterating the `Queue` is what the
source attempts; on success every yielded pool would be marked done. -/
def cancelRequestsRun (pools : PyQueue Pool) : Except String (PyQueue Pool) :=
  match pools.iterElems with
  | .error e => .error e
  | .ok ps => .ok ⟨ps.map markDone⟩

/-- `base_url` from `src/request_commands.py`: drop the querystring — the
prefix before the first question mark, `url.split(chr 63)[0]` — and one
trailing slash (`url[:-1]` when `url` is nonempty and ends in a slash). -/
def base_url (url : String) : String :=
  let url := String.mk (url.data.takeWhile (fun c => c != '?'))
  if url.data ≠ [] ∧ url.data.getLast? = some '/' then String.mk url.data.dropLast
  else url

/-- The key `persist_requests` files an entry under: the string
`method ++ ": " ++ url` built by the format call, with `url = res.url`
taken verbatim from the wrapped response. -/
def historyKey (method url : String) : String := method ++ ": " ++ url

/-- The view settings snapshot `persist_requests` copies into each entry
(`requester.env_string`, `requester.file`, `requester.env_file`). -/
structure Ctx where
  env_string : Option String
  file : Option String
  env_file : Option String
  deriving Repr, DecidableEq

/-- The value stored under a history key: the dict literal written at lines
292–301 of `src/core/__init__.py`. -/
structure HistoryEntry where
  ts : Nat
  env_string : Option String
  file : Option String
  env_file : Option String
  method : String
  url : String
  code : Nat
  request : String
  deriving Repr, DecidableEq

/-- The on-disk history mapping `rh`, an `OrderedDict`: association list in
insertion order, oldest first, keys unique. -/
abbrev HistoryStore := List (String × HistoryEntry)

/-- The `OrderedDict` keys-unique invariant. -/
def keysNodup (rh : HistoryStore) : Prop := (rh.map Prod.fst).Nodup

instance (rh : HistoryStore) : Decidable (keysNodup rh) :=
  inferInstanceAs (Decidable ((rh.map Prod.fst).Nodup))

/-- The entry value built for `response` at timestamp `ts`. -/
def mkEntry (ctx : Ctx) (ts : Nat) (res : HttpResponse) (requestText : String) :
    HistoryEntry :=
  { ts := ts, env_string := ctx.env_string, file := ctx.file,
    env_file := ctx.env_file, method := res.method, url := res.url,
    code := res.status_code, request := requestText }

/-- `rh.pop(key, None)`: remove the entry under `key` if present. -/
def odPop (rh : HistoryStore) (k : String) : HistoryStore :=
  rh.eraseP (fun p => p.1 == k)

/-- `OrderedDict` item assignment `rh[key] = value`: overwrite in place when
the key exists, else append at the most-recently-inserted end. -/
def odSet (rh : HistoryStore) (k : String) (v : HistoryEntry) : HistoryStore :=
  if rh.any (fun p => p.1 == k) then
    rh.map (fun p => if p.1 == k then (k, v) else p)
  else rh ++ [(k, v)]

/-- One iteration of the insertion loop of `persist_requests` (lines
283–301): skip responses without a successful result; otherwise compute the
key, pop a duplicate if present, then assign the fresh entry. -/
def insertResponse (ctx : Ctx) (ts : Nat) (rh : HistoryStore) (r : Response) :
    HistoryStore :=
  match r.response with
  | none => rh
  | some res =>
    odSet
      (if rh.any (fun p => p.1 == historyKey res.method res.url) then
        odPop rh (historyKey res.method res.url)
      else rh)
      (historyKey res.method res.url) (mkEntry ctx ts res r.request)

/-- The full insertion loop `for response in responses`. -/
def insertResponses (ctx : Ctx) (ts : Nat) (rh : HistoryStore)
    (responses : List Response) : HistoryStore :=
  responses.foldl (insertResponse ctx ts) rh

/-- The eviction step of `persist_requests` (lines 303–318): when the mapping
exceeds `history_max_entries`, collect the first `to_delete` keys in current
insertion order and delete them. -/
def evictOverflow (maxEntries : Nat) (rh : HistoryStore) : HistoryStore :=
  if rh.length - maxEntries > 0 then
    ((rh.map Prod.fst).take (rh.length - maxEntries)).foldl
      (fun r k => r.eraseP (fun p => p.1 == k)) rh
  else rh

/-- The mapping finally serialized back to the history file: insertion loop
followed by overflow eviction. -/
def persistStore (ctx : Ctx) (ts maxEntries : Nat) (rh : HistoryStore)
    (responses : List Response) : HistoryStore :=
  evictOverflow maxEntries (insertResponses ctx ts rh responses)

/-- The state `persist_requests` finds the history file in.  `invalid` means
the file opens and reads fine but its text is not valid JSON; `unreadable`
means `open` or `read` raised something other than `FileNotFoundError`. -/
inductive HistoryFile where
  | absent
  | unreadable (err : String)
  | invalid (text : String)
  | valid (rh : HistoryStore)
  deriving Repr, DecidableEq

/-- What a call to `persist_requests` does: return early because history is
disabled, show the modal `HistoryFile Error` dialog and return (file left
untouched), let an uncaught exception escape (`json.loads` on unparsable
text — the final unguarded `open(...,w)` write behaves the same way), or
rewrite the file with a final mapping. -/
inductive PersistOutcome where
  | noHistoryFile
  | errorDialog (msg : String)
  | raised
  | wrote (rh : HistoryStore)
  deriving Repr, DecidableEq

/-- `persist_requests(responses)` (lines 256–322).  `historyFileSetting` is
`self.config.get(..., None)` (a falsy value returns immediately); `file` is
the state of the history file; an absent file is created empty and treated
as the empty mapping. -/
def persist_requests (historyFileSetting : Option String) (maxEntries ts : Nat)
    (ctx : Ctx) (file : HistoryFile) (responses : List Response) :
    PersistOutcome :=
  match historyFileSetting with
  | none => .noHistoryFile
  | some s =>
    if s = "" then .noHistoryFile
    else
      match file with
      | .absent => .wrote (persistStore ctx ts maxEntries [] responses)
      | .unreadable e => .errorDialog ("HistoryFile Error:\n" ++ e)
      | .invalid _ => .raised
      | .valid rh => .wrote (persistStore ctx ts maxEntries rh responses)

/-- A fixed history entry used in concrete evaluations. -/
def sampleEntry : HistoryEntry :=
  { ts := 0, env_string := none, file := none, env_file := none,
    method := "GET", url := "http://e", code := 200, request := "req" }

/-- Python `str.splitlines` on the line boundaries relevant to request files:
`\r\n`, `\r` and `\n` each end a line, and a trailing boundary does not
produce a final empty line.  `cur` holds the current line's characters in
reverse. -/
def pySplitLinesAux : List Char → List Char → List String
  | [], cur => if cur.isEmpty then [] else [String.mk cur.reverse]
  | '\r' :: '\n' :: restC, cur => String.mk cur.reverse :: pySplitLinesAux restC []
  | '\r' :: restC, cur => String.mk cur.reverse :: pySplitLinesAux restC []
  | '\n' :: restC, cur => String.mk cur.reverse :: pySplitLinesAux restC []
  | c :: restC, cur => pySplitLinesAux restC (c :: cur)

/-- `text.splitlines()`. -/
def pySplitLines (s : String) : List String := pySplitLinesAux s.data []

/-- The scanning loop of `parse_env_block`: walk the lines keeping the
`in_block` flag and the accumulated `env_lines`; a closing marker breaks out
of the loop.  Returns the accumulated lines and the final `in_block` flag. -/
def envLoop : List String → Bool → List String → List String × Bool
  | [], inBlock, envLines => (envLines, inBlock)
  | l :: ls, true, envLines =>
    if l = "###env" then (envLines, false)
    else envLoop ls true (envLines ++ [l])
  | l :: ls, false, envLines =>
    if l = "###env" then envLoop ls true envLines
    else envLoop ls false envLines

/-- `parse_env_block(text)` (lines 341–360): scan for the first env block
delimited by lines equal to the marker; return `None` unless the block is
closed and nonempty, else the block's lines joined by newlines. -/
def parse_env_block (text : String) : Option String :=
  if (envLoop (pySplitLines text) false []).1.length = 0 ∨
      (envLoop (pySplitLines text) false []).2 then none
  else some (String.intercalate "\n" (envLoop (pySplitLines text) false []).1)

/-- Restatement of claim C10 in closed form, for comparison with
`parse_env_block`: take the lines after the first marker line, cut the body
at the next marker line; the result is the body joined by newlines when the
block is closed and nonempty, `none` otherwise. -/
def envBlockSpec (text : String) : Option String :=
  match (pySplitLines text).dropWhile (fun l => l != "###env") with
  | [] => none
  | _ :: rest =>
    if rest.any (fun l => l == "###env") ∧
        rest.takeWhile (fun l => l != "###env") ≠ [] then
      some (String.intercalate "\n" (rest.takeWhile (fun l => l != "###env")))
    else none

end Requester

namespace Requester

/-- C1: the batch handed to `handle_responses` is sorted by `ordering`. -/
theorem gather_responses_batch_sorted (ticks : List PoolTick)
    (acc final : List Response)
    (h : (gather_responses ticks acc).batch = some final) :
    final.Sorted orderingLE := by
  induction ticks generalizing acc with
  | nil => simp [gather_responses] at h
  | cons t ts ih =>
    by_cases hd : t.is_done
    · simp only [gather_responses, hd, if_true] at h
      obtain rfl : sortByOrdering (acc ++ t.arrived) = final := by
        simpa using h
      exact List.sorted_insertionSort orderingLE _
    · simp only [gather_responses, hd, if_false] at h
      exact ih _ h

/-- C1 witness: a pool whose responses complete in reverse order; the batch
callback receives them sorted by `ordering`. -/
theorem gather_responses_batch_sorted_witness :
    (gather_responses
        [⟨false, [⟨"b", none, none, 1⟩]⟩, ⟨true, [⟨"a", none, none, 0⟩]⟩]
        []).batch = some [⟨"a", none, none, 0⟩, ⟨"b", none, none, 1⟩] ∧
    List.Sorted orderingLE [⟨"a", none, none, 0⟩, ⟨"b", none, none, 1⟩] :=
  ⟨by decide, gather_responses_batch_sorted
    [⟨false, [⟨"b", none, none, 1⟩]⟩, ⟨true, [⟨"a", none, none, 0⟩]⟩] []
    [⟨"a", none, none, 0⟩, ⟨"b", none, none, 1⟩] (by decide)⟩

/-- C2: once the `is_done` snapshot of a tick is true the aggregator
finalizes during that tick and returns; the callback log is identical
whatever happens in later ticks, so responses arriving in the pool's
container afterwards trigger no further `handle_response` or
`handle_responses` calls. -/
theorem gather_responses_stops_after_done (t : PoolTick)
    (ts ts' : List PoolTick) (acc : List Response) (h : t.is_done = true) :
    gather_responses (t :: ts) acc = gather_responses (t :: ts') acc := by
  simp [gather_responses, h]

/-- C2 witness: a cancelled pool (done observed true) followed by a late
response produces the same callbacks as one followed by nothing. -/
theorem gather_responses_stops_after_done_witness :
    (⟨true, []⟩ : PoolTick).is_done = true ∧
    gather_responses [⟨true, []⟩, ⟨false, [⟨"late", none, none, 0⟩]⟩] [] =
      gather_responses [⟨true, []⟩] [] :=
  ⟨rfl, gather_responses_stops_after_done _ _ _ _ rfl⟩

/-- C3: `RequesterCancelRequestsCommand.run` iterates the pool registry with
`for pool in pools`, but the registry is a `queue.Queue`, which supports no
iteration; the command raises `TypeError` and marks no pool done, here
evaluated on a registry holding one live pool. -/
theorem cancelRequestsRun_raises :
    cancelRequestsRun ⟨[⟨0, false⟩]⟩ =
      .error "TypeError: Queue object is not iterable" := rfl

/-- The eviction loop leaves at most `maxNum` pools queued. -/
theorem evictOld_length_le (maxNum : Nat) :
    ∀ (items evicted : List Pool),
      (evictOld maxNum items evicted).1.length ≤ maxNum := by
  intro items
  induction items with
  | nil => intro evicted; simp [evictOld]
  | cons old rest ih =>
    intro evicted
    rw [evictOld]
    split
    · exact ih _
    · next h => exact Nat.le_of_not_lt h

/-- The eviction loop does nothing when the queue is within capacity. -/
theorem evictOld_of_le {maxNum : Nat} {items evicted : List Pool}
    (h : items.length ≤ maxNum) : evictOld maxNum items evicted = (items, evicted) := by
  cases items with
  | nil => simp [evictOld]
  | cons old rest => rw [evictOld, if_neg (Nat.not_lt.mpr h)]

/-- C8: the registry never exceeds its capacity, and registering into a full
registry evicts exactly the earliest-registered pool, marks it done, and
keeps the remaining pools (and the new one) unchanged. -/
theorem make_requests_register_spec (maxNum : Nat) (pools : PyQueue Pool)
    (p : Pool) (hpos : 0 < maxNum) :
    (∀ (qs : PyQueue Pool) (x : Pool),
        (make_requests_register maxNum qs x).1.qsize ≤ maxNum) ∧
    (pools.qsize = maxNum →
      make_requests_register maxNum pools p =
        (⟨pools.items.drop 1 ++ [p]⟩, (pools.items.take 1).map markDone)) := by
  constructor
  · intro qs x
    exact evictOld_length_le maxNum _ _
  · intro hfull
    obtain ⟨a, restL, hitems⟩ : ∃ a restL, pools.items = a :: restL := by
      cases hq : pools.items with
      | nil =>
        exfalso
        have : pools.qsize = 0 := by simp [PyQueue.qsize, hq]
        omega
      | cons a restL => exact ⟨a, restL, rfl⟩
    have hlen : restL.length + 1 = maxNum := by
      simpa [PyQueue.qsize, hitems] using hfull
    have hq : (pools.put p).items = a :: (restL ++ [p]) := by
      simp [PyQueue.put, hitems]
    have hgt : (a :: (restL ++ [p])).length > maxNum := by
      simp [List.length_append]; omega
    have hle : (restL ++ [p]).length ≤ maxNum := by
      simp [List.length_append]; omega
    have step1 : evictOld maxNum (a :: (restL ++ [p])) [] =
        evictOld maxNum (restL ++ [p]) [markDone a] := by
      rw [evictOld, if_pos hgt]; rfl
    simp only [make_requests_register, hq, step1, evictOld_of_le hle]
    simp [hitems]

/-- C8 witness: capacity 2, a full registry of two pools; the third
registration evicts and marks done the first pool. -/
theorem make_requests_register_spec_witness :
    0 < 2 ∧ (⟨[⟨1, false⟩, ⟨2, false⟩]⟩ : PyQueue Pool).qsize = 2 ∧
    make_requests_register 2 ⟨[⟨1, false⟩, ⟨2, false⟩]⟩ ⟨3, false⟩ =
      (⟨[⟨2, false⟩, ⟨3, false⟩]⟩, [⟨1, true⟩]) :=
  ⟨by decide, by decide, by
    have h := (make_requests_register_spec 2 ⟨[⟨1, false⟩, ⟨2, false⟩]⟩
      ⟨3, false⟩ (by decide)).2 (by decide)
    simpa using h⟩

/-- After popping `k`, no remaining entry carries key `k` (keys unique). -/
theorem odPop_keys_ne {rh : HistoryStore} {k : String} (hnd : keysNodup rh) :
    ∀ p ∈ odPop rh k, p.1 ≠ k := by
  induction rh with
  | nil => intro p hp; simp [odPop, List.eraseP] at hp
  | cons a t ih =>
    simp only [keysNodup, List.map_cons, List.nodup_cons] at hnd
    obtain ⟨hna, hnd'⟩ := hnd
    intro p hp
    by_cases h : a.1 = k
    · rw [odPop, List.eraseP_cons, show (a.1 == k) = true from beq_iff_eq.mpr h] at hp
      simp only [cond_true] at hp
      intro hpk
      apply hna
      rw [h, ← hpk]
      exact List.mem_map_of_mem Prod.fst hp
    · rw [odPop, List.eraseP_cons,
        show (a.1 == k) = false from beq_eq_false_iff_ne.mpr h] at hp
      simp only [cond_false, List.mem_cons] at hp
      rcases hp with rfl | hp
      · exact h
      · exact ih hnd' p hp

/-- A store none of whose keys is `k` reports `k` absent. -/
theorem any_key_eq_false {rh : HistoryStore} {k : String}
    (h : ∀ p ∈ rh, p.1 ≠ k) : rh.any (fun p => p.1 == k) = false := by
  rw [List.any_eq_false]
  intro p hp
  simpa using h p hp

/-- The insertion step for a successful response always ends with the fresh
entry appended at the most-recently-inserted position, after any duplicate
of its key was removed. -/
theorem insertResponse_shape (ctx : Ctx) (ts : Nat) (rh : HistoryStore)
    (r : Response) (res : HttpResponse) (hres : r.response = some res)
    (hnd : keysNodup rh) :
    ∃ rh1 : HistoryStore,
      insertResponse ctx ts rh r =
        rh1 ++ [(historyKey res.method res.url, mkEntry ctx ts res r.request)] ∧
      (∀ p ∈ rh1, p.1 ≠ historyKey res.method res.url) ∧
      keysNodup rh1 := by
  cases hany : rh.any (fun p => p.1 == historyKey res.method res.url) with
  | true =>
    have hne : ∀ p ∈ odPop rh (historyKey res.method res.url),
        p.1 ≠ historyKey res.method res.url := odPop_keys_ne hnd
    have hnd1 : keysNodup (odPop rh (historyKey res.method res.url)) :=
      List.Nodup.sublist (List.Sublist.map Prod.fst (List.eraseP_sublist _)) hnd
    refine ⟨odPop rh (historyKey res.method res.url), ?_, hne, hnd1⟩
    simp only [insertResponse, hres, hany, if_true]
    rw [odSet, if_neg (by simp [any_key_eq_false hne])]
  | false =>
    have hne : ∀ p ∈ rh, p.1 ≠ historyKey res.method res.url := by
      intro p hp
      have := List.any_eq_false.mp hany p hp
      simpa using this
    refine ⟨rh, ?_, hne, hnd⟩
    simp only [insertResponse, hres, hany]
    rw [if_neg (by simp), odSet, if_neg (by simp [hany])]

/-- C6: persisting a response whose key already exists leaves exactly one
entry under that key, holding the new value, at the most-recently-inserted
position. -/
theorem insertResponse_duplicate_key (ctx : Ctx) (ts : Nat) (rh : HistoryStore)
    (r : Response) (res : HttpResponse) (hres : r.response = some res)
    (hnd : keysNodup rh)
    (_hmem : historyKey res.method res.url ∈ rh.map Prod.fst) :
    ((insertResponse ctx ts rh r).filter
        (fun p => p.1 == historyKey res.method res.url)).length = 1 ∧
    (insertResponse ctx ts rh r).getLast? =
      some (historyKey res.method res.url, mkEntry ctx ts res r.request) := by
  obtain ⟨rh1, heq, hne, -⟩ := insertResponse_shape ctx ts rh r res hres hnd
  rw [heq]
  constructor
  · rw [List.filter_append]
    have hnil : rh1.filter (fun p => p.1 == historyKey res.method res.url) = [] := by
      rw [List.filter_eq_nil_iff]
      intro p hp
      simpa using hne p hp
    simp [hnil]
  · simp

/-- C6 witness: a store already holding the key, updated with a fresh entry
for the same method and url. -/
theorem insertResponse_duplicate_key_witness :
    ((⟨"old", some ⟨"GET", "http://e", 200⟩, none, 0⟩ : Response).response =
      some ⟨"GET", "http://e", 200⟩) ∧
    keysNodup [(historyKey "GET" "http://e", sampleEntry)] ∧
    historyKey "GET" "http://e" ∈
      [(historyKey "GET" "http://e", sampleEntry)].map Prod.fst ∧
    ((insertResponse ⟨none, none, none⟩ 7
        [(historyKey "GET" "http://e", sampleEntry)]
        ⟨"old", some ⟨"GET", "http://e", 200⟩, none, 0⟩).filter
          (fun p => p.1 == historyKey "GET" "http://e")).length = 1 :=
  ⟨rfl, by decide, by decide,
    (insertResponse_duplicate_key ⟨none, none, none⟩ 7
      [(historyKey "GET" "http://e", sampleEntry)]
      ⟨"old", some ⟨"GET", "http://e", 200⟩, none, 0⟩
      ⟨"GET", "http://e", 200⟩ rfl (by decide) (by decide)).1⟩

/-- C5 counterexample: a response whose url ends in a slash is stored under
the verbatim url, which differs from the trailing-slash-normalized base url
the claim prescribes. -/
theorem historyKey_not_base_url :
    (insertResponse ⟨none, none, none⟩ 0 []
        ⟨"req", some ⟨"GET", "http://example.com/", 200⟩, none, 0⟩).map
        Prod.fst = ["GET: http://example.com/"] ∧
    base_url "http://example.com/" = "http://example.com" ∧
    ("GET: http://example.com/" : String) ≠
      historyKey "GET" (base_url "http://example.com/") := by
  refine ⟨rfl, by decide, by decide⟩

/-- C5 amended: each response with a successful result is stored under the
key `method ++ ": " ++ url` with the url taken verbatim from the wrapped
response (querystring kept, trailing slash kept), at the end of the
mapping. -/
theorem insertResponse_key_format (ctx : Ctx) (ts : Nat) (rh : HistoryStore)
    (r : Response) (res : HttpResponse) (hres : r.response = some res)
    (hnd : keysNodup rh) :
    (insertResponse ctx ts rh r).getLast? =
      some (res.method ++ ": " ++ res.url, mkEntry ctx ts res r.request) := by
  obtain ⟨rh1, heq, -, -⟩ := insertResponse_shape ctx ts rh r res hres hnd
  rw [heq]
  simp [historyKey]

/-- C5 amended witness: a url with querystring and trailing slash is kept
verbatim in the key. -/
theorem insertResponse_key_format_witness :
    ((⟨"req", some ⟨"POST", "http://e/p/?q=1", 201⟩, none, 0⟩ : Response).response =
      some ⟨"POST", "http://e/p/?q=1", 201⟩) ∧
    keysNodup ([] : HistoryStore) ∧
    (insertResponse ⟨none, none, none⟩ 3 []
        ⟨"req", some ⟨"POST", "http://e/p/?q=1", 201⟩, none, 0⟩).getLast? =
      some ("POST" ++ ": " ++ "http://e/p/?q=1",
        mkEntry ⟨none, none, none⟩ 3 ⟨"POST", "http://e/p/?q=1", 201⟩ "req") :=
  ⟨rfl, by decide,
    insertResponse_key_format ⟨none, none, none⟩ 3 []
      ⟨"req", some ⟨"POST", "http://e/p/?q=1", 201⟩, none, 0⟩
      ⟨"POST", "http://e/p/?q=1", 201⟩ rfl (by decide)⟩

/-- Deleting the first `d` keys of a unique-key store, in insertion order,
drops exactly its first `d` entries. -/
theorem foldl_eraseP_take (rh : HistoryStore) (d : Nat) (hnd : keysNodup rh) :
    ((rh.map Prod.fst).take d).foldl
      (fun r k => r.eraseP (fun p => p.1 == k)) rh = rh.drop d := by
  induction rh generalizing d with
  | nil => simp
  | cons a t ih =>
    simp only [keysNodup, List.map_cons, List.nodup_cons] at hnd
    cases d with
    | zero => simp
    | succ d =>
      simp only [List.map_cons, List.take_succ_cons, List.foldl_cons]
      have h1 : (a :: t).eraseP (fun p => p.1 == a.1) = t := by
        rw [List.eraseP_cons_of_pos]
        simp
      rw [h1, List.drop_succ_cons]
      exact ih d hnd.2

/-- The eviction step equals dropping the overflow from the front. -/
theorem evictOverflow_eq_drop (maxEntries : Nat) (rh : HistoryStore)
    (hnd : keysNodup rh) :
    evictOverflow maxEntries rh = rh.drop (rh.length - maxEntries) := by
  by_cases h : rh.length - maxEntries > 0
  · rw [evictOverflow, if_pos h]
    exact foldl_eraseP_take rh _ hnd
  · rw [evictOverflow, if_neg h]
    have h0 : rh.length - maxEntries = 0 := by omega
    rw [h0, List.drop_zero]

/-- The insertion step preserves uniqueness of keys. -/
theorem keysNodup_insertResponse (ctx : Ctx) (ts : Nat) (rh : HistoryStore)
    (r : Response) (hnd : keysNodup rh) :
    keysNodup (insertResponse ctx ts rh r) := by
  cases hres : r.response with
  | none => simpa [insertResponse, hres] using hnd
  | some res =>
    obtain ⟨rh1, heq, hne, hnd1⟩ := insertResponse_shape ctx ts rh r res hres hnd
    rw [heq, keysNodup, List.map_append]
    refine List.Nodup.append hnd1 (List.nodup_singleton _) ?_
    intro x hx1 hx2
    obtain ⟨p, hp, rfl⟩ := List.mem_map.mp hx1
    exact hne p hp (by simpa using hx2)

/-- The full insertion loop preserves uniqueness of keys. -/
theorem keysNodup_insertResponses (ctx : Ctx) (ts : Nat) :
    ∀ (responses : List Response) (rh : HistoryStore), keysNodup rh →
      keysNodup (insertResponses ctx ts rh responses) := by
  intro responses
  induction responses with
  | nil => intro rh h; simpa [insertResponses] using h
  | cons r rs ih =>
    intro rh h
    simpa [insertResponses, List.foldl_cons] using
      ih (insertResponse ctx ts rh r) (keysNodup_insertResponse ctx ts rh r h)

/-- C7: after `persist_requests`, the mapping equals the post-insertion
mapping with exactly the overflow dropped from the front of the insertion
order; its size never exceeds `history_max_entries` and equals the bound
exactly when the post-insertion size exceeded it. -/
theorem persistStore_bounded (ctx : Ctx) (ts maxEntries : Nat)
    (rh : HistoryStore) (responses : List Response) (hnd : keysNodup rh) :
    persistStore ctx ts maxEntries rh responses =
      (insertResponses ctx ts rh responses).drop
        ((insertResponses ctx ts rh responses).length - maxEntries) ∧
    (persistStore ctx ts maxEntries rh responses).length ≤ maxEntries ∧
    (maxEntries < (insertResponses ctx ts rh responses).length →
      (persistStore ctx ts maxEntries rh responses).length = maxEntries) := by
  have hnd' := keysNodup_insertResponses ctx ts responses rh hnd
  have heq := evictOverflow_eq_drop maxEntries (insertResponses ctx ts rh responses) hnd'
  refine ⟨heq, ?_, ?_⟩
  · rw [persistStore, heq, List.length_drop]; omega
  · intro hlt; rw [persistStore, heq, List.length_drop]; omega

/-- C7 witness: bound 1, one old entry, one new successful response; the
final store holds exactly one entry. -/
theorem persistStore_bounded_witness :
    keysNodup [("a", sampleEntry)] ∧
    (persistStore ⟨none, none, none⟩ 0 1 [("a", sampleEntry)]
        [⟨"req", some ⟨"GET", "http://e", 200⟩, none, 0⟩]).length ≤ 1 :=
  ⟨by decide,
    (persistStore_bounded ⟨none, none, none⟩ 0 1 [("a", sampleEntry)]
      [⟨"req", some ⟨"GET", "http://e", 200⟩, none, 0⟩] (by decide)).2.1⟩

/-- C9 counterexample: with `history_max_entries = 1` and a prior mapping of
two entries, persisting an empty batch rewrites the file with the oldest
entry evicted — the contents are not identical to the prior state. -/
theorem persist_requests_empty_batch_not_identity :
    persist_requests (some "requester.history.json") 1 0 ⟨none, none, none⟩
        (.valid [("a", sampleEntry), ("b", sampleEntry)]) [] =
      .wrote [("b", sampleEntry)] ∧
    persist_requests (some "requester.history.json") 1 0 ⟨none, none, none⟩
        (.valid [("a", sampleEntry), ("b", sampleEntry)]) [] ≠
      .wrote [("a", sampleEntry), ("b", sampleEntry)] := by
  refine ⟨by decide, by decide⟩

/-- C9 amended: persisting an empty batch inserts nothing, and leaves the
history mapping unchanged whenever the mapping is within
`history_max_entries`; a larger mapping is still trimmed to the bound. -/
theorem persist_requests_empty_batch_within_bound (f : String) (hf : ¬f = "")
    (maxEntries ts : Nat) (ctx : Ctx) (rh : HistoryStore)
    (hle : rh.length ≤ maxEntries) :
    persist_requests (some f) maxEntries ts ctx (.valid rh) [] = .wrote rh := by
  simp only [persist_requests, if_neg hf]
  have h1 : insertResponses ctx ts rh [] = rh := rfl
  have h2 : evictOverflow maxEntries rh = rh := by
    rw [evictOverflow, if_neg (by omega)]
  simp [persistStore, h1, h2]

/-- C9 amended witness: a one-entry mapping within a bound of 1 survives an
empty-batch persist unchanged. -/
theorem persist_requests_empty_batch_within_bound_witness :
    ¬("requester.history.json" : String) = "" ∧
    ([("a", sampleEntry)] : HistoryStore).length ≤ 1 ∧
    persist_requests (some "requester.history.json") 1 0 ⟨none, none, none⟩
        (.valid [("a", sampleEntry)]) [] = .wrote [("a", sampleEntry)] :=
  ⟨by decide, by decide,
    persist_requests_empty_batch_within_bound "requester.history.json"
      (by decide) 1 0 ⟨none, none, none⟩ [("a", sampleEntry)] (by decide)⟩

/-- C4 counterexample: when the history file exists but holds text that is
not valid JSON, `json.loads` raises an uncaught `ValueError`: the exception
escapes `persist_requests` instead of falling back to an empty mapping and
persisting the batch. -/
theorem persist_requests_unparsable_raises :
    persist_requests (some "requester.history.json") 100 0 ⟨none, none, none⟩
      (.invalid "not json") [⟨"req", some ⟨"GET", "http://e", 200⟩, none, 0⟩] =
    .raised := rfl

/-- C4 amended: an absent history file is created and the batch persisted
from an empty mapping; a read failure other than absence shows a modal
error dialog and returns without persisting and without raising; content
that reads fine but does not parse as JSON makes `persist_requests` raise;
a readable, parsable file gets the batch persisted into it. -/
theorem persist_requests_error_handling (maxEntries ts : Nat) (ctx : Ctx)
    (responses : List Response) (e text : String) (rh : HistoryStore) :
    persist_requests (some "requester.history.json") maxEntries ts ctx
        .absent responses =
      .wrote (persistStore ctx ts maxEntries [] responses) ∧
    persist_requests (some "requester.history.json") maxEntries ts ctx
        (.unreadable e) responses =
      .errorDialog ("HistoryFile Error:\n" ++ e) ∧
    persist_requests (some "requester.history.json") maxEntries ts ctx
        (.invalid text) responses = .raised ∧
    persist_requests (some "requester.history.json") maxEntries ts ctx
        (.valid rh) responses =
      .wrote (persistStore ctx ts maxEntries rh responses) :=
  ⟨rfl, rfl, rfl, rfl⟩

/-- Inside an open block, the loop accumulates lines up to the closing
marker and reports whether the block stayed open. -/
theorem envLoop_true (ls : List String) : ∀ acc : List String,
    envLoop ls true acc =
      (acc ++ ls.takeWhile (fun l => l != "###env"),
        !ls.any (fun l => l == "###env")) := by
  induction ls with
  | nil => intro acc; simp [envLoop]
  | cons l ls ih =>
    intro acc
    by_cases h : l = "###env"
    · subst h
      simp [envLoop]
    · rw [envLoop, if_neg h, ih]
      have hb : (l != "###env") = true := by simp [h]
      have hb2 : (l == "###env") = false := by simp [h]
      simp [List.takeWhile_cons, List.any_cons, hb, hb2]

/-- Outside a block, the loop skips up to the first marker and then scans
the open block. -/
theorem envLoop_false (ls : List String) : ∀ acc : List String,
    envLoop ls false acc =
      match ls.dropWhile (fun l => l != "###env") with
      | [] => (acc, false)
      | _ :: rest => envLoop rest true acc := by
  induction ls with
  | nil => intro acc; simp [envLoop]
  | cons l ls ih =>
    intro acc
    by_cases h : l = "###env"
    · subst h
      rw [envLoop, if_pos rfl]
      simp [List.dropWhile_cons]
    · rw [envLoop, if_neg h, ih]
      have hb : (l != "###env") = true := by simp [h]
      simp [List.dropWhile_cons, hb]

/-- C10: `parse_env_block` returns exactly the lines strictly between the
first pair of marker lines, joined by newlines, and `none` whenever the
opening marker is never closed or the block has no lines. -/
theorem parse_env_block_eq_spec (text : String) :
    parse_env_block text = envBlockSpec text := by
  rw [parse_env_block, envBlockSpec, envLoop_false]
  cases hdrop : (pySplitLines text).dropWhile (fun l => l != "###env") with
  | nil => simp
  | cons m rest =>
    dsimp only
    rw [envLoop_true]
    simp only [List.nil_append]
    cases hany : rest.any (fun l => l == "###env") with
    | false => simp
    | true =>
      by_cases hbody : rest.takeWhile (fun l => l != "###env") = []
      · simp [hbody]
      · simp [hbody, List.length_eq_zero]
